import Mathlib

/-!
Verification development for the `kvstore-rs` repository (src/lib.rs).

The repository implements an in-memory key-value store backed by a
write-ahead log (WAL).  Strings are embedded as `List Char` (Rust `String`
is a sequence of Unicode scalar values, exactly Lean's `Char`).  Files are
embedded by their content: the WAL file is a list of lines (every write in
the source appends a full line `s ++ "\n"`, and reading splits on line
terminators), and the store directory is a pair of optional file contents,
one for the active WAL `wa.log` and one for the quarantine file
`wa.log.old` produced by `KvStore::wal_old_move`.

`KvStore::wal_line_deserialize` parses a line by building the JSON document
`["<line with every space replaced by ","> "]` and running
`serde_json::from_str::<Command>` on it, where `Deserialize for Command`
drives `CommandVisitor::visit_seq` over the JSON array.  That pipeline is
embedded faithfully below: `parseJString` models serde_json's string
scanner (escapes, `\u` hex escapes with surrogate pairs, rejection of raw
control characters), `seqFirst`/`seqNext`/`endSeq` model serde_json's
sequence access (including the trailing-element check made after the
visitor returns), and `deserializeCommand` models the visitor itself.
Syntax-level serde errors that the repository only ever wraps opaquely in
`KvStoreError::DeserializeCommand` are collapsed into one constructor
`DeErr.parseErr`; the data-carrying serde errors produced by the visitor
(`unknown_variant`, `invalid_length`) are kept with their payloads.
-/

deriving instance DecidableEq for Except

/-- Characters of a string literal, the `List Char` embedding of a Rust string. -/
def str (s : String) : List Char := s.data

/-- Commands of the store, mirroring `enum Command` in src/lib.rs. -/
inductive Command
  | get : List Char → Command
  | set : List Char → List Char → Command
  | rm : List Char → Command
deriving DecidableEq

/-- Model of the `serde_json` errors reachable through
`KvStore::wal_line_deserialize`: the visitor's `unknown_variant` and
`invalid_length` errors keep their payloads, all other serde_json
syntax-level errors are collapsed into `parseErr`. -/
inductive DeErr
  | unknownVariant : List Char → DeErr
  | invalidLength : Nat → DeErr
  | parseErr : DeErr
deriving DecidableEq

/-- Errors of the store, mirroring `enum KvStoreError` in src/lib.rs.
Variants that carry an opaque `io::Error` payload in the source carry no
payload here; variants carrying strings or serde errors keep them. -/
inductive KvStoreError
  | unknownCwd : KvStoreError
  | invalidWalFileName : KvStoreError
  | failedWalRename : KvStoreError
  | failedWalRestore : KvStoreError
  | failedWalOpen : KvStoreError
  | failedOldWalOpen : KvStoreError
  | failedWalLineRead : KvStoreError
  | failedWalWrite : KvStoreError
  | deserializeCommand : DeErr → KvStoreError
  | invalidCommand : List Char → KvStoreError
  | missingCommand : KvStoreError
  | missingKey : List Char → KvStoreError
  | missingValue : List Char → KvStoreError
  | failedRm : List Char → KvStoreError
deriving DecidableEq

/-- The in-memory index: the `DashMap<String, String>` held in the
`store` field of `KvStore`, embedded as an association list with
replace-on-insert semantics. -/
def Index : Type := List (List Char × List Char)

instance : DecidableEq Index := by unfold Index; infer_instance

/-- Lookup in the index (`DashMap::get`). -/
def idxLookup (k : List Char) : Index → Option (List Char)
  | [] => none
  | (k', v) :: rest => if k' = k then some v else idxLookup k rest

/-- Insert into the index (`DashMap::insert`): unconditional overwrite. -/
def idxInsert (k v : List Char) (m : Index) : Index :=
  (k, v) :: m.filter (fun p => ! decide (p.1 = k))

/-- Remove from the index (`DashMap::remove`). -/
def idxRemove (k : List Char) (m : Index) : Index :=
  m.filter (fun p => ! decide (p.1 = k))

/-- State of a live `KvStore`: the index (`store` field) and the content
of the active WAL file reachable through `wal_handle`. -/
structure KvStore where
  store : Index
  walHandle : List (List Char)
deriving DecidableEq

/-- The WAL line written by `KvStore::set`: `format!("set {key} {value}")`. -/
def setLine (k v : List Char) : List Char := str "set" ++ ' ' :: k ++ ' ' :: v

/-- The WAL line written by `KvStore::remove`: `format!("rm {key}")`. -/
def rmLine (k : List Char) : List Char := str "rm" ++ ' ' :: k

/-- The one-line encoding of a command produced by `impl Serialize for
Command` in src/lib.rs: the strum-lowercased variant name followed by the
space-separated arguments. -/
def encode : Command → List Char
  | .get k => str "get" ++ ' ' :: k
  | .set k v => str "set" ++ ' ' :: k ++ ' ' :: v
  | .rm k => str "rm" ++ ' ' :: k

/-- Hex digit value, as read by serde_json's `\u` escape handling. -/
def hexVal (c : Char) : Option Nat :=
  if '0' ≤ c ∧ c ≤ '9' then some (c.toNat - 48)
  else if 'a' ≤ c ∧ c ≤ 'f' then some (c.toNat - 87)
  else if 'A' ≤ c ∧ c ≤ 'F' then some (c.toNat - 55)
  else none

/-- Single-character JSON escapes accepted by serde_json (other than `\u`). -/
def escChar (c : Char) : Option Char :=
  if c = '"' then some '"'
  else if c = '\\' then some '\\'
  else if c = '/' then some '/'
  else if c = 'b' then some (Char.ofNat 8)
  else if c = 'f' then some (Char.ofNat 12)
  else if c = 'n' then some '\n'
  else if c = 'r' then some '\r'
  else if c = 't' then some '\t'
  else none

/-- Model of serde_json's string-body scanner, entered just after an
opening quote.  Returns the decoded content and the remaining characters
after the closing quote, or `none` on any malformed input: raw control
characters, bad escapes, bad hex, and unpaired `\u` surrogates are all
errors, and a leading surrogate must be followed immediately by a `\u`
trailing surrogate (the pair combining into one scalar value). -/
def parseJString : List Char → Option (List Char × List Char)
  | [] => none
  | '"' :: rest => some ([], rest)
  | '\\' :: rest =>
    match rest with
    | 'u' :: h1 :: h2 :: h3 :: h4 :: rest2 =>
      match hexVal h1, hexVal h2, hexVal h3, hexVal h4 with
      | some a, some b, some c, some d =>
        let n := ((a * 16 + b) * 16 + c) * 16 + d
        if 0xD800 ≤ n ∧ n ≤ 0xDBFF then
          match rest2 with
          | '\\' :: 'u' :: g1 :: g2 :: g3 :: g4 :: rest3 =>
            match hexVal g1, hexVal g2, hexVal g3, hexVal g4 with
            | some a2, some b2, some c2, some d2 =>
              let m := ((a2 * 16 + b2) * 16 + c2) * 16 + d2
              if 0xDC00 ≤ m ∧ m ≤ 0xDFFF then
                (parseJString rest3).map
                  (fun p => (Char.ofNat (0x10000 + (n - 0xD800) * 0x400 + (m - 0xDC00)) :: p.1, p.2))
              else none
            | _, _, _, _ => none
          | _ => none
        else if 0xDC00 ≤ n ∧ n ≤ 0xDFFF then none
        else (parseJString rest2).map (fun p => (Char.ofNat n :: p.1, p.2))
      | _, _, _, _ => none
    | e :: rest2 =>
      match escChar e with
      | some ch => (parseJString rest2).map (fun p => (ch :: p.1, p.2))
      | none => none
    | [] => none
  | c :: rest =>
    if c.toNat < 32 then none
    else (parseJString rest).map (fun p => (c :: p.1, p.2))

/-- JSON inter-token whitespace skipped by serde_json. -/
def isWs (c : Char) : Bool := c = ' ' || c = '\t' || c = '\n' || c = '\r'

/-- Skip inter-token whitespace. -/
def skipWs (cs : List Char) : List Char := cs.dropWhile isWs

/-- Model of serde_json reading one `String` sequence element at a value
position: the value must be a JSON string (anything else the repository
only sees as an opaque deserialization failure). -/
def readElem : List Char → Except DeErr (List Char × List Char)
  | [] => .error .parseErr
  | c :: rest =>
    if c = '"' then
      match parseJString rest with
      | some p => .ok p
      | none => .error .parseErr
    else .error .parseErr

/-- Model of serde_json's `SeqAccess::next_element` on the first call,
entered just after the `[`. -/
def seqFirst (cs : List Char) : Except DeErr (Option (List Char × List Char)) :=
  match skipWs cs with
  | [] => .error .parseErr
  | c :: rest =>
    if c = ']' then .ok none
    else (readElem (c :: rest)).map some

/-- Model of serde_json's `SeqAccess::next_element` on subsequent calls:
a comma then a value, or `]` ending the sequence. -/
def seqNext (cs : List Char) : Except DeErr (Option (List Char × List Char)) :=
  match skipWs cs with
  | [] => .error .parseErr
  | c :: rest =>
    if c = ']' then .ok none
    else if c = ',' then
      match skipWs rest with
      | [] => .error .parseErr
      | d :: rest2 =>
        if d = ']' then .error .parseErr
        else (readElem (d :: rest2)).map some
    else .error .parseErr

/-- Model of serde_json's `end_seq` (run after the visitor returns
successfully) followed by `from_str`'s end-of-input check: the next
non-whitespace character must be the closing `]`, with nothing after it.
In particular unread trailing elements are an error. -/
def endSeq (cs : List Char) : Except DeErr Unit :=
  match skipWs cs with
  | [] => .error .parseErr
  | c :: rest =>
    if c = ']' then
      if skipWs rest = [] then .ok () else .error .parseErr
    else .error .parseErr

/-- Model of `serde_json::from_str::<Command>` on a document: `deserialize`
calls `deserialize_seq(CommandVisitor)`, and `CommandVisitor::visit_seq`
reads the command token, then for `"set"` a key and a value, for `"rm"` a
key, and errors with `unknown_variant` on anything else. -/
def deserializeCommand (cs : List Char) : Except DeErr Command :=
  match skipWs cs with
  | [] => .error .parseErr
  | c :: rest =>
    if c = '[' then
      match seqFirst rest with
      | .error e => .error e
      | .ok none => .error (.invalidLength 0)
      | .ok (some (cmd, r1)) =>
        if cmd = str "set" then
          match seqNext r1 with
          | .error e => .error e
          | .ok none => .error (.invalidLength 1)
          | .ok (some (k, r2)) =>
            match seqNext r2 with
            | .error e => .error e
            | .ok none => .error (.invalidLength 2)
            | .ok (some (v, r3)) =>
              match endSeq r3 with
              | .error e => .error e
              | .ok _ => .ok (.set k v)
        else if cmd = str "rm" then
          match seqNext r1 with
          | .error e => .error e
          | .ok none => .error (.invalidLength 1)
          | .ok (some (k, r2)) =>
            match endSeq r2 with
            | .error e => .error e
            | .ok _ => .ok (.rm k)
        else .error (.unknownVariant cmd)
    else .error .parseErr

/-- The separator that `line.replace(' ', "\",\"")` substitutes for each
space of the line. -/
def sepChars : List Char := ['"', ',', '"']

/-- Model of `line.replace(' ', "\",\"")`. -/
def replaceSpaces : List Char → List Char
  | [] => []
  | c :: cs => (if c = ' ' then sepChars else [c]) ++ replaceSpaces cs

/-- The JSON document `KvStore::wal_line_deserialize` builds from a line:
`format!("[\"{}\"]", line.replace(' ', "\",\""))`. -/
def mkDoc (line : List Char) : List Char :=
  '[' :: '"' :: (replaceSpaces line ++ ['"', ']'])

/-- The pure decoding step of `KvStore::wal_line_deserialize`: build the
JSON document from the line and run `serde_json::from_str::<Command>`,
wrapping any serde error in `KvStoreError::DeserializeCommand`. -/
def walLineDecode (line : List Char) : Except KvStoreError Command :=
  (deserializeCommand (mkDoc line)).mapError KvStoreError.deserializeCommand

namespace KvStore

/-- Model of `KvStore::wal_write`: append one line to the active WAL. -/
def walWrite (s : KvStore) (line : List Char) : KvStore :=
  { s with walHandle := s.walHandle ++ [line] }

/-- Model of `KvStore::set`.  The boolean `wok` models whether the
underlying `write_all` of the WAL line succeeds: the source propagates a
failed write as `KvStoreError::FailedWalWrite` *before* touching the
index, and only on success inserts into the map.  The pair returned is
(result, state of the store and WAL afterwards). -/
def set (wok : Bool) (s : KvStore) (k v : List Char) : Except KvStoreError Unit × KvStore :=
  if wok then
    (.ok (), { store := idxInsert k v s.store, walHandle := s.walHandle ++ [setLine k v] })
  else (.error .failedWalWrite, s)

/-- Model of `KvStore::get`: reads the index only; `Ok(Some(v))` when the
key is present and `Ok(None)` when it is absent. -/
def get (s : KvStore) (k : List Char) : Except KvStoreError (Option (List Char)) :=
  .ok (idxLookup k s.store)

/-- Model of `KvStore::remove`: the `rm` line is appended to the WAL
unconditionally (when the write succeeds), and only then is the key
removed from the index; a miss returns `KvStoreError::FailedRm(key)` with
the record already appended. -/
def remove (wok : Bool) (s : KvStore) (k : List Char) : Except KvStoreError Unit × KvStore :=
  if wok then
    let s' := walWrite s (rmLine k)
    match idxLookup k s.store with
    | none => (.error (.failedRm k), s')
    | some _ => (.ok (), { s' with store := idxRemove k s.store })
  else (.error .failedWalWrite, s)

/-- Model of `KvStore::execute`: dispatch a command to get/set/remove,
returning the value for a successful get and the empty string for a
successful mutation.  `wok` is as in `set`/`remove`. -/
def execute (wok : Bool) (cmd : Command) (s : KvStore) :
    Except KvStoreError (List Char) × KvStore :=
  match cmd with
  | .get k =>
    match get s k with
    | .error e => (.error e, s)
    | .ok (some v) => (.ok v, s)
    | .ok none => (.ok [], s)
  | .set k v =>
    match set wok s k v with
    | (.error e, s') => (.error e, s')
    | (.ok _, s') => (.ok [], s')
  | .rm k =>
    match remove wok s k with
    | (.error e, s') => (.error e, s')
    | (.ok _, s') => (.ok [], s')

/-- Model of `KvStore::wal_line_deserialize` applied to a live store:
decode the line and execute the resulting command (WAL writes during
replay succeed in this model, as the claims about replay presuppose). -/
def walLineDeserialize (line : List Char) (s : KvStore) :
    Except KvStoreError (List Char) × KvStore :=
  match walLineDecode line with
  | .error e => (.error e, s)
  | .ok cmd => execute true cmd s

/-- Model of `KvStore::wal_read`: process the quarantined WAL's lines in
file order, stopping at the first failure. -/
def walRead : List (List Char) → KvStore → Except KvStoreError KvStore
  | [], s => .ok s
  | l :: ls, s =>
    match walLineDeserialize l s with
    | (.error e, _) => .error e
    | (.ok _, s') => walRead ls s'

end KvStore

/-- The fixed WAL file name, `const WAL: &str = "wa.log"`. -/
def walFileName : List Char := str "wa.log"

/-- Characters after the last `.` of a file name, or `none` when the name
has no `.`: the helper for Rust's `Path::extension`. -/
def afterLastDot : List Char → Option (List Char)
  | [] => none
  | c :: cs =>
    match afterLastDot cs with
    | some e => some e
    | none => if c = '.' then some cs else none

/-- Rust's `Path::extension` on a file name: the portion after the final
`.`, except that a name beginning with `.` and containing no further `.`
has no extension. -/
def rustExtension (n : List Char) : Option (List Char) :=
  match n with
  | '.' :: rest => afterLastDot rest
  | _ => afterLastDot n

/-- The store directory as seen by `KvStore::open`: the content of the
active WAL file `wa.log` (if it exists) and of the quarantine file
`wa.log.old` (if it exists), each a list of lines. -/
structure Disk where
  active : Option (List (List Char))
  quar : Option (List (List Char))
deriving DecidableEq

/-- Model of `KvStore::open` on a store directory, returning the result
and the directory contents afterwards.  Steps of the source: if the
active WAL exists, `wal_old_move` computes the quarantine path from the
WAL file name's extension (failing with `InvalidWalFileName` when there is
none) and renames the active WAL onto it; `wal_new_open` then creates or
truncates a fresh active WAL; `wal_old_load` replays the quarantined
lines through `execute`, so each replayed mutation is re-appended to the
fresh active WAL; on replay success the quarantine file is deleted, and on
replay failure the quarantine file is renamed back over the active path
and the error is returned with no store produced.  Renames and file
creation themselves succeed in this model; the failure this model keeps is
the replay failure the claims are about. -/
def openStore (d : Disk) : Except KvStoreError KvStore × Disk :=
  match d.active with
  | none => (.ok { store := [], walHandle := [] }, { d with active := some [] })
  | some oldLines =>
    match rustExtension walFileName with
    | none => (.error .invalidWalFileName, d)
    | some _ =>
      match KvStore.walRead oldLines { store := [], walHandle := [] } with
      | .error e => (.error e, { active := some oldLines, quar := none })
      | .ok s => (.ok s, { active := some s.walHandle, quar := none })

/-- Space-separated join of a list of tokens, the shape of a WAL line
made of whitespace-free tokens. -/
def joinToks : List (List Char) → List Char
  | [] => []
  | [t] => t
  | t :: u :: ts => t ++ ' ' :: joinToks (u :: ts)

/-- A character that the serde_json pipeline passes through verbatim
inside a string: not a space (so the token survives the space
replacement), not a quote or backslash (no JSON escaping), and not a
control character (which serde_json rejects unescaped). -/
def plainChar (c : Char) : Bool :=
  ! decide (c = ' ') && ! decide (c = '"') && ! decide (c = '\\') && decide (32 ≤ c.toNat)

/-- A token made only of plain characters. -/
def plainTok (t : List Char) : Bool := t.all plainChar

/-- The decode classification stated by the amended claim C6, written from
the amended spec's words for comparison with `deserializeCommand`: a line
always splits into at least one token; a first token other than `set` or
`rm` (including `get` and the empty token) is an unknown-variant error;
`set` needs exactly key and value, `rm` exactly a key, with too few tokens
an invalid-length error and extra trailing tokens a parse error. -/
def classifyDecode : List (List Char) → Except DeErr Command
  | [] => .error (.invalidLength 0)
  | cmd :: args =>
    if cmd = str "set" then
      match args with
      | [] => .error (.invalidLength 1)
      | [_] => .error (.invalidLength 2)
      | [k, v] => .ok (.set k v)
      | _ :: _ :: _ :: _ => .error .parseErr
    else if cmd = str "rm" then
      match args with
      | [] => .error (.invalidLength 1)
      | [k] => .ok (.rm k)
      | _ :: _ :: _ => .error .parseErr
    else .error (.unknownVariant cmd)

/-- The closing part of the JSON document after the first token's opening
content: closing quote, then for each further token a comma-quoted
segment, then the final `"]` collapsed into the recursion base. -/
def docTail : List (List Char) → List Char
  | [] => [']']
  | t :: ts => ',' :: '"' :: (t ++ '"' :: docTail ts)

/-- One atomic step of a mutating operation as decomposed by the source of
`KvStore::set` and `KvStore::remove`: the WAL append (`wal_write`) and the
index update (`DashMap::insert`) are two separate statements with no lock
spanning them, so steps of concurrent calls may interleave. -/
inductive WStep
  | appendStep : List Char → WStep
  | insertStep : List Char → List Char → WStep

/-- Run a sequence of atomic steps (an interleaving of concurrent
mutations) against a store. -/
def runSteps : List WStep → KvStore → KvStore
  | [], s => s
  | .appendStep l :: r, s => runSteps r { s with walHandle := s.walHandle ++ [l] }
  | .insertStep k v :: r, s => runSteps r { s with store := idxInsert k v s.store }

/-- The two atomic steps of `KvStore::set(k, v)` in source order. -/
def setSteps (k v : List Char) : List WStep :=
  [.appendStep (setLine k v), .insertStep k v]

/-- An interleaving of `set("k","1")` and `set("k","2")` in which both WAL
appends happen before either index insert, and the inserts land in the
opposite order: thread one runs its append, is preempted, thread two runs
its append and its insert, then thread one runs its insert.  Each thread's
own two steps stay in source order, so this is a legal schedule of
`setSteps (str "k") (str "1")` against `setSteps (str "k") (str "2")`. -/
def racySchedule : List WStep :=
  [.appendStep (setLine (str "k") (str "1")),
   .appendStep (setLine (str "k") (str "2")),
   .insertStep (str "k") (str "2"),
   .insertStep (str "k") (str "1")]

/-- Recognizer for the `InvalidWalFileName` outcome of `open`, used to
state that this error is unreachable. -/
def isInvalidWalNameErr : Except KvStoreError KvStore → Bool
  | .error .invalidWalFileName => true
  | _ => false

/-!
Helper lemmas: evaluation of the serde_json pipeline on documents built
from space-joined plain tokens, and the shape of replay errors.
-/

theorem plainChar_spec {c : Char} (h : plainChar c = true) :
    c ≠ ' ' ∧ c ≠ '"' ∧ c ≠ '\\' ∧ 32 ≤ c.toNat := by
  simp only [plainChar, Bool.and_eq_true, Bool.not_eq_true', decide_eq_false_iff_not,
    decide_eq_true_eq] at h
  exact ⟨h.1.1.1, h.1.1.2, h.1.2, h.2⟩

theorem parseJString_quote (R : List Char) : parseJString ('"' :: R) = some ([], R) := rfl

theorem parseJString_cons_plain (c : Char) (L : List Char) (h : plainChar c = true) :
    parseJString (c :: L) = (parseJString L).map (fun p => (c :: p.1, p.2)) := by
  obtain ⟨h1, h2, h3, h4⟩ := plainChar_spec h
  rw [parseJString.eq_def]
  split
  · simp_all
  · simp_all
  · simp_all
  · rename_i c' rest heq1 heq2 heq3
    obtain ⟨rfl, rfl⟩ : c = c' ∧ L = rest := by
      injection heq3 with ha hb
      exact ⟨ha, hb⟩
    rw [if_neg (by omega)]

theorem parseJString_plain (t L : List Char) (h : plainTok t = true) :
    parseJString (t ++ '"' :: L) = some (t, L) := by
  induction t with
  | nil => exact parseJString_quote L
  | cons c t ih =>
    simp only [plainTok, List.all_cons, Bool.and_eq_true] at h
    have ih' := ih (by simp [plainTok, h.2])
    rw [List.cons_append, parseJString_cons_plain c _ h.1, ih']
    rfl

theorem skipWs_cons (c : Char) (L : List Char) (h : isWs c = false) :
    skipWs (c :: L) = c :: L := by
  simp [skipWs, List.dropWhile_cons, h]

theorem readElem_plain (t R : List Char) (h : plainTok t = true) :
    readElem ('"' :: (t ++ '"' :: R)) = .ok (t, R) := by
  simp [readElem, parseJString_plain t R h]

theorem seqFirst_plain (t R : List Char) (h : plainTok t = true) :
    seqFirst ('"' :: (t ++ '"' :: R)) = .ok (some (t, R)) := by
  rw [seqFirst, skipWs_cons _ _ (by decide)]
  simp [readElem_plain t R h, Except.map]

theorem seqNext_docTail_nil : seqNext (docTail []) = .ok none := rfl

theorem seqNext_docTail_cons (u : List Char) (ts : List (List Char)) (h : plainTok u = true) :
    seqNext (docTail (u :: ts)) = .ok (some (u, docTail ts)) := by
  show seqNext (',' :: '"' :: (u ++ '"' :: docTail ts)) = _
  rw [seqNext, skipWs_cons _ _ (by decide)]
  simp [skipWs_cons _ _ (show isWs '"' = false by decide), readElem_plain u _ h, Except.map]

theorem endSeq_docTail_nil : endSeq (docTail []) = .ok () := rfl

theorem endSeq_docTail_cons (u : List Char) (ts : List (List Char)) :
    endSeq (docTail (u :: ts)) = .error .parseErr := by
  show endSeq (',' :: '"' :: (u ++ '"' :: docTail ts)) = _
  rw [endSeq, skipWs_cons _ _ (by decide)]
  simp

theorem replaceSpaces_append (a b : List Char) :
    replaceSpaces (a ++ b) = replaceSpaces a ++ replaceSpaces b := by
  induction a with
  | nil => rfl
  | cons c t ih => simp [replaceSpaces, ih]

theorem replaceSpaces_plain (t : List Char) (h : plainTok t = true) :
    replaceSpaces t = t := by
  induction t with
  | nil => rfl
  | cons c t ih =>
    simp only [plainTok, List.all_cons, Bool.and_eq_true] at h
    have hc := plainChar_spec h.1
    simp [replaceSpaces, hc.1, ih (by simp [plainTok, h.2])]

theorem docBody_join (t : List Char) (ts : List (List Char))
    (ht : plainTok t = true) (hts : ts.all plainTok = true) :
    replaceSpaces (joinToks (t :: ts)) ++ ['"', ']'] = t ++ '"' :: docTail ts := by
  induction ts generalizing t with
  | nil => simp [joinToks, replaceSpaces_plain t ht, docTail]
  | cons u ts ih =>
    simp only [List.all_cons, Bool.and_eq_true] at hts
    have step : joinToks (t :: u :: ts) = t ++ ' ' :: joinToks (u :: ts) := rfl
    rw [step, replaceSpaces_append, replaceSpaces_plain t ht]
    have sp : replaceSpaces (' ' :: joinToks (u :: ts)) =
        sepChars ++ replaceSpaces (joinToks (u :: ts)) := by
      simp [replaceSpaces]
    rw [sp, List.append_assoc, List.append_assoc]
    rw [ih u hts.1 hts.2]
    simp [sepChars, docTail]

theorem mkDoc_join (t : List Char) (ts : List (List Char))
    (ht : plainTok t = true) (hts : ts.all plainTok = true) :
    mkDoc (joinToks (t :: ts)) = '[' :: '"' :: (t ++ '"' :: docTail ts) := by
  rw [mkDoc, docBody_join t ts ht hts]

theorem deserializeCommand_join (toks : List (List Char)) (h0 : toks ≠ [])
    (hp : toks.all plainTok = true) :
    deserializeCommand (mkDoc (joinToks toks)) = classifyDecode toks := by
  obtain ⟨t, ts, rfl⟩ : ∃ t ts, toks = t :: ts := by
    cases toks with
    | nil => exact absurd rfl h0
    | cons a b => exact ⟨a, b, rfl⟩
  simp only [List.all_cons, Bool.and_eq_true] at hp
  rw [mkDoc_join t ts hp.1 hp.2]
  rw [deserializeCommand, skipWs_cons _ _ (by decide)]
  simp only [seqFirst_plain t (docTail ts) hp.1, if_true, classifyDecode]
  by_cases hset : t = str "set"
  · subst hset
    simp only [eq_self_iff_true, if_true]
    cases ts with
    | nil => simp only [seqNext_docTail_nil]
    | cons u ts2 =>
      have hu : plainTok u = true := by
        have h2 := hp.2; simp only [List.all_cons, Bool.and_eq_true] at h2; exact h2.1
      have hts2 : ts2.all plainTok = true := by
        have h2 := hp.2; simp only [List.all_cons, Bool.and_eq_true] at h2; exact h2.2
      simp only [seqNext_docTail_cons u ts2 hu]
      cases ts2 with
      | nil => simp only [seqNext_docTail_nil]
      | cons v ts3 =>
        have hv : plainTok v = true := by
          simp only [List.all_cons, Bool.and_eq_true] at hts2; exact hts2.1
        simp only [seqNext_docTail_cons v ts3 hv]
        cases ts3 with
        | nil => simp only [endSeq_docTail_nil]
        | cons w ts4 => simp only [endSeq_docTail_cons]
  · simp only [if_neg hset]
    by_cases hrm : t = str "rm"
    · subst hrm
      simp only [eq_self_iff_true, if_true]
      cases ts with
      | nil => simp only [seqNext_docTail_nil]
      | cons u ts2 =>
        have hu : plainTok u = true := by
          have h2 := hp.2; simp only [List.all_cons, Bool.and_eq_true] at h2; exact h2.1
        simp only [seqNext_docTail_cons u ts2 hu]
        cases ts2 with
        | nil => simp only [endSeq_docTail_nil]
        | cons v ts3 => simp only [endSeq_docTail_cons]
    · simp only [if_neg hrm]

theorem encode_set_join (k v : List Char) : encode (.set k v) = joinToks [str "set", k, v] := by
  simp [encode, joinToks]

theorem encode_rm_join (k : List Char) : encode (.rm k) = joinToks [str "rm", k] := by
  simp [encode, joinToks]

theorem encode_get_join (k : List Char) : encode (.get k) = joinToks [str "get", k] := by
  simp [encode, joinToks]

theorem setLine_join (k v : List Char) : setLine k v = joinToks [str "set", k, v] := by
  simp [setLine, joinToks]

theorem rmLine_join (k : List Char) : rmLine k = joinToks [str "rm", k] := by
  simp [rmLine, joinToks]

theorem walLineDeserialize_error_shape (l : List Char) (s s' : KvStore) (e : KvStoreError)
    (h : KvStore.walLineDeserialize l s = (.error e, s')) :
    (∃ j, e = .deserializeCommand j) ∨ ∃ k, e = .failedRm k := by
  rw [KvStore.walLineDeserialize] at h
  cases hdec : walLineDecode l with
  | error e0 =>
    rw [hdec] at h
    rw [walLineDecode] at hdec
    cases hj : deserializeCommand (mkDoc l) with
    | error j =>
      rw [hj] at hdec
      simp [Except.mapError] at hdec
      simp at h
      exact Or.inl ⟨j, by rw [← h.1, ← hdec]⟩
    | ok c => rw [hj] at hdec; simp [Except.mapError] at hdec
  | ok cmd =>
    simp only [hdec] at h
    cases cmd with
    | get k =>
      rw [KvStore.execute.eq_def] at h
      cases hl : idxLookup k s.store with
      | none => simp [KvStore.get, hl] at h
      | some v => simp [KvStore.get, hl] at h
    | set k v => simp [KvStore.execute, KvStore.set] at h
    | rm k =>
      rw [KvStore.execute.eq_def] at h
      cases hl : idxLookup k s.store with
      | none =>
        simp [KvStore.remove, hl] at h
        exact Or.inr ⟨k, h.1.symm⟩
      | some v => simp [KvStore.remove, hl] at h

theorem walRead_error_shape (L : List (List Char)) (s : KvStore) (e : KvStoreError)
    (h : KvStore.walRead L s = .error e) :
    (∃ j, e = .deserializeCommand j) ∨ ∃ k, e = .failedRm k := by
  induction L generalizing s with
  | nil => simp [KvStore.walRead] at h
  | cons l0 ls ih =>
    rw [KvStore.walRead] at h
    rcases hstep : KvStore.walLineDeserialize l0 s with ⟨r, s'⟩
    rw [hstep] at h
    cases r with
    | error e0 =>
      simp at h
      exact h ▸ walLineDeserialize_error_shape l0 s s' e0 hstep
    | ok _ => exact ih s' h

theorem walRead_error_of_bad_line (L : List (List Char)) (s : KvStore)
    (h : ∃ l ∈ L, ∃ j, deserializeCommand (mkDoc l) = .error j) :
    ∃ e, KvStore.walRead L s = .error e := by
  induction L generalizing s with
  | nil => simp at h
  | cons l0 ls ih =>
    rcases hstep : KvStore.walLineDeserialize l0 s with ⟨r, s'⟩
    cases r with
    | error e0 => exact ⟨e0, by rw [KvStore.walRead, hstep]⟩
    | ok out =>
      obtain ⟨l, hl, j, hj⟩ := h
      rcases List.mem_cons.mp hl with rfl | hmem
      · exfalso
        rw [KvStore.walLineDeserialize, walLineDecode, hj] at hstep
        simp [Except.mapError] at hstep
      · obtain ⟨e, he⟩ := ih s' ⟨l, hmem, j, hj⟩
        exact ⟨e, by rw [KvStore.walRead, hstep]; exact he⟩

/-!
Claim theorems.
-/

/-- Claim C1 (code bug shown at its failing input): replay equivalence
fails on the code.  Opening a fresh store over an empty directory and
applying the single command `remove "a"` appends the record `rm a` to the
active log and leaves the Index empty; reopening a new store over the same
directory does not succeed: replay re-executes `rm a` through `execute`,
whose index miss is a replay failure (`FailedRm "a"`), so `open` rolls the
log back and returns that error instead of producing a store with the
prior (empty) Index. -/
theorem open_fails_after_logged_failed_remove :
    openStore ⟨none, none⟩ = (.ok ⟨[], []⟩, ⟨some [], none⟩) ∧
    KvStore.remove true ⟨[], []⟩ (str "a") =
      (.error (.failedRm (str "a")), ⟨[], [rmLine (str "a")]⟩) ∧
    openStore ⟨some [rmLine (str "a")], none⟩ =
      (.error (.failedRm (str "a")), ⟨some [rmLine (str "a")], none⟩) :=
  ⟨by decide, by decide, by decide⟩

/-- Claim C2: rollback atomicity.  For every prior log content `L` whose
quarantined copy contains at least one malformed (non-decoding) line, and
any pre-existing quarantine file, `open` returns an error and produces no
store, and afterwards the original log exists with unchanged content at
its original path while no quarantine file remains. -/
theorem open_rolls_back_on_malformed_quarantine (L : List (List Char))
    (q : Option (List (List Char)))
    (h : ∃ l ∈ L, ∃ j, deserializeCommand (mkDoc l) = .error j) :
    ∃ e, openStore ⟨some L, q⟩ = (.error e, ⟨some L, none⟩) := by
  obtain ⟨e, he⟩ := walRead_error_of_bad_line L ⟨[], []⟩ h
  have hext : rustExtension walFileName = some (str "log") := by decide
  exact ⟨e, by simp [openStore, hext, he]⟩

/-- Claim C2 witness: a one-line log whose single line is malformed. -/
theorem open_rolls_back_on_malformed_quarantine_witness :
    ∃ e, openStore ⟨some [str "malformed line"], none⟩ =
      (.error e, ⟨some [str "malformed line"], none⟩) :=
  open_rolls_back_on_malformed_quarantine [str "malformed line"] none
    ⟨str "malformed line", by decide, .unknownVariant (str "malformed"), by decide⟩

/-- Claim C3 counterexample: the codec round trip fails for the `Get`
variant.  `CommandVisitor::visit_seq` recognizes only `set` and `rm`, so
decoding the encoded `get k` record yields an unknown-variant error, not
the command back. -/
theorem decode_encode_get_fails :
    walLineDecode (encode (.get (str "k"))) =
      .error (.deserializeCommand (.unknownVariant (str "get"))) ∧
    walLineDecode (encode (.get (str "k"))) ≠ .ok (.get (str "k")) :=
  ⟨by decide, by decide⟩

/-- Claim C3 (amended): the codec round trip `decode (encode c) = c` holds
for the `Set` and `Rm` variants whose keys and values are built from
characters the JSON layer passes through verbatim (no whitespace, no
double quote, no backslash, no control characters); the `Get` variant
never round-trips. -/
theorem decode_encode_set_rm_roundtrip (k v : List Char)
    (hk : plainTok k = true) (hv : plainTok v = true) :
    walLineDecode (encode (.set k v)) = .ok (.set k v) ∧
    walLineDecode (encode (.rm k)) = .ok (.rm k) := by
  constructor
  · rw [encode_set_join, walLineDecode,
      deserializeCommand_join [str "set", k, v] (by simp) (by simp [hk, hv]; decide)]
    simp [classifyDecode, Except.mapError]
  · rw [encode_rm_join, walLineDecode,
      deserializeCommand_join [str "rm", k] (by simp) (by simp [hk]; decide)]
    simp [classifyDecode, Except.mapError, if_neg (show ¬ str "rm" = str "set" from by decide)]

/-- Claim C3 witness: the round trip evaluated at concrete key and value. -/
theorem decode_encode_set_rm_roundtrip_witness :
    walLineDecode (encode (.set (str "a") (str "1"))) = .ok (.set (str "a") (str "1")) ∧
    walLineDecode (encode (.rm (str "a"))) = .ok (.rm (str "a")) :=
  decode_encode_set_rm_roundtrip (str "a") (str "1") (by decide) (by decide)

/-- Claim C4 counterexample: `get` on an absent key does not return a
NotFound error.  On the empty store, `get "a"` returns `Ok(None)`, which
is not an error value at all (in particular not the repository's
key-not-found error). -/
theorem get_absent_returns_ok_none :
    KvStore.get ⟨[], []⟩ (str "a") = .ok none ∧
    KvStore.get ⟨[], []⟩ (str "a") ≠ .error (.failedRm (str "a")) :=
  ⟨by decide, by decide⟩

/-- Claim C4 (amended): `get` returns `Ok` of the index lookup — `Some
value` for a present key and `None` (not a NotFound error) for an absent
one — and reads the Index only: executing a `Get` leaves the store,
including the log, unchanged, with the looked-up value (or the empty
string for a miss) as output. -/
theorem get_reads_index_only (s : KvStore) (k : List Char) :
    KvStore.get s k = .ok (idxLookup k s.store) ∧
    KvStore.execute true (.get k) s = (.ok ((idxLookup k s.store).getD []), s) := by
  refine ⟨rfl, ?_⟩
  cases hl : idxLookup k s.store with
  | none => simp [KvStore.execute, KvStore.get, hl]
  | some v => simp [KvStore.execute, KvStore.get, hl]

/-- Claim C5: remove asymmetry.  For every store state, `remove k` first
appends the `rm k` record to the active log unconditionally; when the key
is absent the Index is unchanged and the NotFound error carrying the key
(`FailedRm k`) is returned, and when it is present the key is deleted and
the call succeeds. -/
theorem remove_appends_then_updates (s : KvStore) (k : List Char) :
    (idxLookup k s.store = none →
      KvStore.remove true s k =
        (.error (.failedRm k), ⟨s.store, s.walHandle ++ [rmLine k]⟩)) ∧
    (∀ v, idxLookup k s.store = some v →
      KvStore.remove true s k =
        (.ok (), ⟨idxRemove k s.store, s.walHandle ++ [rmLine k]⟩)) := by
  constructor
  · intro h
    simp [KvStore.remove, KvStore.walWrite, h]
  · intro v h
    simp [KvStore.remove, KvStore.walWrite, h]

/-- Claim C5 witness: both cases evaluated at concrete stores. -/
theorem remove_appends_then_updates_witness :
    KvStore.remove true ⟨[], []⟩ (str "b") =
      (.error (.failedRm (str "b")), ⟨[], [rmLine (str "b")]⟩) ∧
    KvStore.remove true ⟨[(str "b", str "2")], []⟩ (str "b") =
      (.ok (), ⟨[], [rmLine (str "b")]⟩) := by
  constructor
  · exact (remove_appends_then_updates ⟨[], []⟩ (str "b")).1 (by decide)
  · exact ((remove_appends_then_updates ⟨[(str "b", str "2")], []⟩ (str "b")).2
      (str "2") (by decide)).trans (by decide)

/-- Claim C6 counterexample: the empty line does not decode to the
`MissingCommand` error the claim requires.  It splits into one empty
token, and the visitor reports serde's unknown-variant error on that empty
token, wrapped as `DeserializeCommand`. -/
theorem empty_line_not_missing_command :
    walLineDecode [] = .error (.deserializeCommand (.unknownVariant [])) ∧
    walLineDecode [] ≠ .error .missingCommand :=
  ⟨by decide, by decide⟩

/-- Claim C6 (amended): every decode failure is `DeserializeCommand`
wrapping a serde_json error — the `MissingCommand`, `InvalidCommand`,
`MissingKey` and `MissingValue` variants are never produced by decoding.
On a line of whitespace-free plain tokens the classification is: a first
token outside set/rm (including `get` and the empty token) gives serde's
unknown-variant error carrying that token; `set` or `rm` with missing
arguments gives serde's invalid-length error; exact arity decodes; extra
tokens are a syntax error. -/
theorem decode_errors_are_serde_wrapped :
    (∀ line e, walLineDecode line = .error e →
      ∃ j, e = KvStoreError.deserializeCommand j) ∧
    (∀ toks, toks ≠ [] → toks.all plainTok = true →
      walLineDecode (joinToks toks) =
        (classifyDecode toks).mapError KvStoreError.deserializeCommand) := by
  constructor
  · intro line e h
    rw [walLineDecode] at h
    cases hj : deserializeCommand (mkDoc line) with
    | error j =>
      rw [hj] at h
      simp [Except.mapError] at h
      exact ⟨j, h.symm⟩
    | ok c =>
      rw [hj] at h
      simp [Except.mapError] at h
  · intro toks h0 hp
    rw [walLineDecode, deserializeCommand_join toks h0 hp]

/-- Claim C6 witness: both parts applied to the line `get x`. -/
theorem decode_errors_are_serde_wrapped_witness :
    (∃ j, (KvStoreError.deserializeCommand (DeErr.unknownVariant (str "get"))) =
      KvStoreError.deserializeCommand j) ∧
    walLineDecode (joinToks [str "get", str "x"]) =
      (classifyDecode [str "get", str "x"]).mapError KvStoreError.deserializeCommand := by
  constructor
  · exact decode_errors_are_serde_wrapped.1 (joinToks [str "get", str "x"]) _ (by decide)
  · exact decode_errors_are_serde_wrapped.2 [str "get", str "x"] (by decide) (by decide)

/-- Claim C7 counterexample: trailing tokens are not ignored.  The line
`set a b` decodes to `Set{a, b}`, but `set a b c` fails with a
deserialization error (serde_json's trailing-characters check fires when
the visitor leaves the extra element unread), instead of decoding to the
same command. -/
theorem trailing_token_changes_decode :
    walLineDecode (str "set a b c") = .error (.deserializeCommand .parseErr) ∧
    walLineDecode (str "set a b") = .ok (.set (str "a") (str "b")) :=
  ⟨by decide, by decide⟩

/-- Claim C7 (amended): extra trailing tokens are rejected, not accepted
and ignored.  For every well-formed `set` or `rm` record line of plain
tokens followed by one or more extra whitespace-separated tokens, decode
fails with a `DeserializeCommand` error; only exact-arity lines decode. -/
theorem trailing_tokens_rejected (k v ex : List Char) (exs : List (List Char))
    (hk : plainTok k = true) (hv : plainTok v = true) (hex : plainTok ex = true)
    (hexs : exs.all plainTok = true) :
    walLineDecode (joinToks (str "set" :: k :: v :: ex :: exs)) =
      .error (.deserializeCommand .parseErr) ∧
    walLineDecode (joinToks (str "rm" :: k :: ex :: exs)) =
      .error (.deserializeCommand .parseErr) := by
  constructor
  · rw [walLineDecode, deserializeCommand_join _ (by simp)
      (by simp [hk, hv, hex, hexs]; decide)]
    simp [classifyDecode, Except.mapError]
  · rw [walLineDecode, deserializeCommand_join _ (by simp)
      (by simp [hk, hex, hexs]; decide)]
    simp [classifyDecode, Except.mapError, if_neg (show ¬ str "rm" = str "set" from by decide)]

/-- Claim C7 witness: one extra token after a `set` and after an `rm`. -/
theorem trailing_tokens_rejected_witness :
    walLineDecode (joinToks [str "set", str "a", str "b", str "c"]) =
      .error (.deserializeCommand .parseErr) ∧
    walLineDecode (joinToks [str "rm", str "a", str "c"]) =
      .error (.deserializeCommand .parseErr) := by
  have h := trailing_tokens_rejected (str "a") (str "b") (str "c") []
    (by decide) (by decide) (by decide) (by decide)
  exact ⟨h.1, h.2⟩

/-- Claim C8: mutation atomicity on append failure.  For every store
state, when the WAL append fails during `set` or `remove`, the call
returns the write error and the store — Index and log alike — is
completely unchanged. -/
theorem failed_append_leaves_index_unchanged (s : KvStore) (k v : List Char) :
    KvStore.set false s k v = (.error .failedWalWrite, s) ∧
    KvStore.remove false s k = (.error .failedWalWrite, s) :=
  ⟨rfl, rfl⟩

/-- Claim C9 (code bug shown at its failing schedule): mutations are not
serialized by any critical section.  `KvStore::set` is a `wal_write`
followed by a `DashMap::insert` with no lock spanning the two, so the
schedule `racySchedule` — a legal interleaving of `set("k","1")` and
`set("k","2")` — produces a log whose file order (`set k 1` before
`set k 2`) replays to the Index `k = 2`, while the observed final Index is
`k = 1`: no total order of the two mutations is consistent with both. -/
theorem racy_schedule_breaks_log_index_consistency :
    (runSteps racySchedule ⟨[], []⟩).walHandle =
      [setLine (str "k") (str "1"), setLine (str "k") (str "2")] ∧
    (runSteps racySchedule ⟨[], []⟩).store = [(str "k", str "1")] ∧
    KvStore.walRead (runSteps racySchedule ⟨[], []⟩).walHandle ⟨[], []⟩ =
      .ok ⟨[(str "k", str "2")], [setLine (str "k") (str "1"), setLine (str "k") (str "2")]⟩ ∧
    idxLookup (str "k") [(str "k", str "2")] ≠ idxLookup (str "k") [(str "k", str "1")] :=
  ⟨by decide, by decide, by decide, by decide⟩

/-- Claim C10: `open` never returns the `InvalidWalFileName` error.  The
active log name is fixed to `wa.log`, whose `Path::extension` is always
`some "log"`, and no other step of `open` can produce that error (replay
errors are deserialization or failed-remove errors only). -/
theorem open_never_invalid_wal_file_name (d : Disk) :
    isInvalidWalNameErr (openStore d).1 = false := by
  rcases d with ⟨active, q⟩
  cases active with
  | none => simp [openStore, isInvalidWalNameErr]
  | some L =>
    have hext : rustExtension walFileName = some (str "log") := by decide
    cases hr : KvStore.walRead L ⟨[], []⟩ with
    | error e =>
      rcases walRead_error_shape L ⟨[], []⟩ e hr with ⟨j, rfl⟩ | ⟨k, rfl⟩ <;>
        simp [openStore, hext, hr, isInvalidWalNameErr]
    | ok s => simp [openStore, hext, hr, isInvalidWalNameErr]
